import Mathlib

/-!
# Verification of the simpletd TDLib client wrapper

Shallow embedding of `src/simpletd/simpletd.py` (class `TdJson`).

Modelling conventions:
* JSON values exchanged with the engine become the mutual inductive `JVal` /
  `JFields` (Python dicts are ordered association lists, `JFields`).
* The engine's poll stream (`td_receive` results) is a finite list of
  `Option JVal`: `none` is a poll timeout, `some e` a delivered message.
  Running a `while True` receive loop over a finite stream models what the
  loop does within that stream; returning `none`/`terminated = false` means
  the loop is still running after consuming the whole stream.
* Randomness (`os.urandom`) is passed in as an explicit byte list.
* `sys.exit` outcomes are reified as `ExitArg` (CPython: `sys.exit(n)` with an
  integer exits with status `n`; `sys.exit(msg)` with a string prints it and
  exits with status 1).
-/

namespace SimpleTd

mutual
/-- JSON values as produced and consumed by the wrapper: strings, integers,
booleans and objects.  Mirrors the shapes the Python code builds with dict
literals and receives from `json.loads` on engine messages. -/
inductive JVal where
  | str (s : String)
  | int (n : Int)
  | bool (b : Bool)
  | obj (fields : JFields)

inductive JFields where
  | nil
  | cons (k : String) (v : JVal) (fs : JFields)
end

/-- Python dict lookup `d[k]` / `d.get(k)` on the association-list model:
first (and, for dicts, only) binding of the key wins. -/
def flookup : JFields → String → Option JVal
  | .nil, _ => none
  | .cons k v fs, key => if k = key then some v else flookup fs key

/-- Python dict assignment `d[key] = val`: replaces the value in place when the
key exists (keeping its position), otherwise appends the new binding. -/
def fset : JFields → String → JVal → JFields
  | .nil, key, val => .cons key val .nil
  | .cons k v fs, key, val =>
    if k = key then .cons key val fs else .cons k v (fset fs key val)

/-- Field access on a message: `e[k]` when `e` is a dict, else nothing
(Python would raise a `TypeError` on non-dict indexing). -/
def getField (e : JVal) (k : String) : Option JVal :=
  match e with
  | .obj fs => flookup fs k
  | _ => none

/-- Python truthiness of a JSON value: empty string / zero / `False` /
empty dict are falsy, everything else truthy. -/
def jtruthy : JVal → Bool
  | .str s => !s.isEmpty
  | .int n => decide (n ≠ 0)
  | .bool b => b
  | .obj .nil => false
  | .obj (.cons _ _ _) => true

/-- The hexadecimal digit characters produced by `binascii.hexlify`
(lowercase). -/
def hexChar (d : Nat) : Char :=
  if d < 10 then Char.ofNat (48 + d) else Char.ofNat (87 + d)

/-- The character sequence of `binascii.hexlify`: each byte becomes two
lowercase hex digits, high nibble first, bytes in order. -/
def hexChars (bs : List Nat) : List Char :=
  bs.foldr (fun b acc => hexChar (b / 16) :: hexChar (b % 16) :: acc) []

/-- `binascii.hexlify(...).decode()`. -/
def hexlify (bs : List Nat) : String :=
  ⟨hexChars bs⟩

/-- `TdJson.create_extra_id` (line 285): hex-encode the given random bytes
(`os.urandom(9)` at the default size). -/
def create_extra_id (randomBytes : List Nat) : String :=
  hexlify randomBytes

/-- Recognizer for the characters `create_extra_id` may produce. -/
def isHexLowerChar (c : Char) : Bool :=
  c.isDigit || (decide ('a' ≤ c) && decide (c ≤ 'f'))

/-- The string `ex["id"]` of an `@extra` object, when it is a string. -/
def idOfExtraVal (ex : JVal) : Option String :=
  (getField ex "id").elim none fun v =>
    match v with
    | .str s => some s
    | _ => none

/-- The test on line 282,
`event and event.get("@extra") and event["@extra"]["id"] == extra`,
for messages whose `@extra`, when present and truthy, is an object with an
`id` key (on other truthy `@extra` values the Python line raises instead;
see `wellFormedMsg`).  A non-string `id` compares unequal to the string
`extra`, as in Python. -/
def matchesExtra (x : String) (e : JVal) : Bool :=
  jtruthy e &&
    (getField e "@extra").elim false fun ex =>
      jtruthy ex && (idOfExtraVal ex == some x)

/-- Messages on which line 282 evaluates without raising: dicts whose
`@extra` field is absent, falsy, or an object carrying an `id` key. -/
def wellFormedMsg (e : JVal) : Bool :=
  match e with
  | .obj _ =>
    (match getField e "@extra" with
     | none => true
     | some ex =>
       !jtruthy ex ||
         (match ex with
          | .obj exf => (flookup exf "id").isSome
          | _ => false))
  | _ => false

/-- The correlation id carried by a message: the `id` string inside a truthy
`@extra` field, when present. -/
def msgExtraId (e : JVal) : Option String :=
  (getField e "@extra").elim none fun ex =>
    if jtruthy ex then idOfExtraVal ex else none

/-- `TdJson.wait` (lines 277-283) run over a finite poll stream: repeatedly
`receive`, skip timeouts and messages that do not bear the wanted id, and
return the first message that does, together with the part of the stream the
loop has not consumed.  `none` means the loop is still waiting after the
whole stream. -/
def waitRun (x : String) : List (Option JVal) → Option (JVal × List (Option JVal))
  | [] => none
  | none :: rest => waitRun x rest
  | some e :: rest =>
    if matchesExtra x e then some (e, rest) else waitRun x rest

/-! ## Message Codec

Modelled from the spec: the Message Codec (`encode`/`decode`, realized in the
repository by the Python standard library's `json.dumps(...).encode("utf-8")`
and `json.loads(...)`, which are not part of this repository's sources) is
modelled as a JSON serializer and a strict parser over the data model `JVal`:
objects in `\x7b"key": value, ...\x7d` form with the `", "` / `": "`
separators `json.dumps` uses, strings quoted with `"` and `\` escaped,
integers in decimal, booleans as `true`/`false`.  The byte-oriented exchange
format is modelled at the level of the character sequence; UTF-8 encoding of
that sequence is injective, so it does not affect the round-trip property. -/

/-- The double-quote character `"`. -/
def quoteChar : Char := Char.ofNat 34

/-- The backslash character. -/
def backslashChar : Char := Char.ofNat 92

/-- The opening curly brace. -/
def lbraceChar : Char := Char.ofNat 123

/-- The closing curly brace. -/
def rbraceChar : Char := Char.ofNat 125

/-- JSON string-body escaping: backslash and double quote get a backslash
prefix, every other character stands for itself. -/
def escapeChars : List Char → List Char
  | [] => []
  | c :: cs =>
    if c = backslashChar ∨ c = quoteChar then backslashChar :: c :: escapeChars cs
    else c :: escapeChars cs

/-- A JSON string literal: quoted, body escaped. -/
def encodeStr (s : String) : List Char :=
  quoteChar :: (escapeChars s.data ++ [quoteChar])

/-- The decimal digit character for `d`. -/
def digitChar (d : Nat) : Char := Char.ofNat (48 + d)

/-- Decimal digits of a natural number, most significant first. -/
def natChars (n : Nat) : List Char :=
  if n = 0 then [digitChar 0] else (Nat.digits 10 n).reverse.map digitChar

/-- Decimal form of an integer, with a leading minus sign when negative. -/
def intChars (n : Int) : List Char :=
  if n < 0 then '-' :: natChars n.natAbs else natChars n.toNat

mutual
/-- JSON serialization of a value (the character sequence whose UTF-8 bytes
`json.dumps(..).encode("utf-8")` would produce). -/
def jencode : JVal → List Char
  | .str s => encodeStr s
  | .int n => intChars n
  | .bool true => 't' :: 'r' :: 'u' :: 'e' :: []
  | .bool false => 'f' :: 'a' :: 'l' :: 's' :: 'e' :: []
  | .obj fs => lbraceChar :: (encodeFields fs ++ [rbraceChar])

/-- Serialization of an object body: `"key": value` entries joined by
`", "`. -/
def encodeFields : JFields → List Char
  | .nil => []
  | .cons k v .nil => encodeStr k ++ (':' :: ' ' :: jencode v)
  | .cons k v (.cons k2 v2 fs) =>
    (encodeStr k ++ (':' :: ' ' :: jencode v)) ++
      (',' :: ' ' :: encodeFields (.cons k2 v2 fs))
end

/-- Parse a string body up to and including the closing quote, undoing
`escapeChars`: a backslash takes the next character literally. -/
def parseStrBody : List Char → Option (List Char × List Char)
  | [] => none
  | c :: rest =>
    if c = quoteChar then some ([], rest)
    else if c = backslashChar then
      match rest with
      | [] => none
      | c2 :: rest2 =>
        match parseStrBody rest2 with
        | none => none
        | some (s, r) => some (c2 :: s, r)
    else
      match parseStrBody rest with
      | none => none
      | some (s, r) => some (c :: s, r)

/-- Consume an expected literal character sequence. -/
def dropLit : List Char → List Char → Option (List Char)
  | [], cs => some cs
  | _ :: _, [] => none
  | l :: ls, c :: cs => if c = l then dropLit ls cs else none

/-- Split off the leading run of decimal digit characters, as digit values. -/
def takeDigits : List Char → (List Nat × List Char)
  | [] => ([], [])
  | c :: rest =>
    if c.isDigit then
      let p := takeDigits rest
      ((c.toNat - 48) :: p.1, p.2)
    else ([], c :: rest)

/-- Parse a nonempty run of decimal digits as a natural number. -/
def parseNatChars (cs : List Char) : Option (Nat × List Char) :=
  match takeDigits cs with
  | ([], _) => none
  | (ds, r) => some (Nat.ofDigits 10 ds.reverse, r)

/-- Parse an optionally negated decimal integer. -/
def parseIntChars (cs : List Char) : Option (Int × List Char) :=
  match cs with
  | [] => none
  | c :: rest =>
    if c = '-' then
      match parseNatChars rest with
      | none => none
      | some (m, r) => some (-(m : Int), r)
    else
      match parseNatChars (c :: rest) with
      | none => none
      | some (m, r) => some ((m : Int), r)

mutual
/-- Fueled parser for a JSON value (strict: accepts exactly the output
grammar of `jencode`). -/
def parseVal : Nat → List Char → Option (JVal × List Char)
  | 0, _ => none
  | _ + 1, [] => none
  | f + 1, c :: rest =>
    if c = quoteChar then
      match parseStrBody rest with
      | none => none
      | some (s, r) => some (.str (String.mk s), r)
    else if c = lbraceChar then
      match parseFields f rest with
      | none => none
      | some (fs, r) => some (.obj fs, r)
    else if c = 't' then
      match dropLit ('r' :: 'u' :: 'e' :: []) rest with
      | none => none
      | some r => some (.bool true, r)
    else if c = 'f' then
      match dropLit ('a' :: 'l' :: 's' :: 'e' :: []) rest with
      | none => none
      | some r => some (.bool false, r)
    else
      match parseIntChars (c :: rest) with
      | none => none
      | some (n, r) => some (.int n, r)

/-- Fueled parser for an object body including its closing brace. -/
def parseFields : Nat → List Char → Option (JFields × List Char)
  | 0, _ => none
  | _ + 1, [] => none
  | f + 1, c :: rest =>
    if c = rbraceChar then some (.nil, rest)
    else if c = quoteChar then
      match parseStrBody rest with
      | none => none
      | some (k, r1) =>
        match r1 with
        | c1 :: c2 :: r2 =>
          if c1 = ':' ∧ c2 = ' ' then
            match parseVal f r2 with
            | none => none
            | some (v, r3) =>
              match r3 with
              | [] => none
              | c3 :: r4 =>
                if c3 = rbraceChar then some (.cons (String.mk k) v .nil, r4)
                else if c3 = ',' then
                  match r4 with
                  | [] => none
                  | c4 :: r5 =>
                    if c4 = ' ' then
                      match parseFields f r5 with
                      | none => none
                      | some (fs, r6) => some (.cons (String.mk k) v fs, r6)
                    else none
                else none
          else none
        | _ => none
    else none
end

/-- `json.loads` on the strict grammar: parse a complete value, with fuel
ample for any output of `jencode` (see `jsize_le_encode_len`). -/
def jdecode (cs : List Char) : Option JVal :=
  match parseVal (cs.length + 1) cs with
  | some (m, []) => some m
  | _ => none

mutual
/-- Fuel measure for `parseVal`: one unit per grammar node. -/
def jsize : JVal → Nat
  | .str _ => 1
  | .int _ => 1
  | .bool _ => 1
  | .obj fs => 1 + fsize fs

/-- Fuel measure for `parseFields`. -/
def fsize : JFields → Nat
  | .nil => 1
  | .cons _ v fs => 1 + jsize v + fsize fs
end

/-! ## Process-exit model (`sys.exit`) and the fatal-log callback -/

/-- Argument given to `sys.exit`.  CPython semantics: an integer argument is
the exit status; any other (e.g. string) argument is printed to stderr and the
process exits with status 1. -/
inductive ExitArg where
  | code (n : Int)
  | message (s : String)

/-- The process exit status produced by `sys.exit` with the given argument. -/
def exitStatus : ExitArg → Int
  | .code n => n
  | .message _ => 1

/-- `on_log_message_callback` (lines 95-98): on severity 0 the callback calls
`sys.exit` with the fatal text (terminating the process after surfacing it);
on any other severity it just returns (`none` = no exit, no other effect). -/
def on_log_message_callback (verbosity : Int) (message : String) : Option ExitArg :=
  if verbosity = 0 then some (.message ("TDLib fatal error: " ++ message)) else none

/-- Outcome of the `self._handle_authentication()` call inside `login`'s
`try` block: it either runs to completion or a `KeyboardInterrupt` (external
user cancellation during a prompt or a blocking `receive`) escapes from it. -/
inductive AuthFlowResult where
  | finished
  | interrupted

/-- `TdJson.login` (lines 157-168) at the level of process-exit behaviour:
a `KeyboardInterrupt` is caught and turned into `sys.exit(0)`; otherwise
`login` returns normally (no exit). -/
def loginExit : AuthFlowResult → Option ExitArg
  | .finished => none
  | .interrupted => some (.code 0)

/-- `_load_library` (line 55): when loading the TDLib shared object raises,
the process exits via `sys.exit` on a diagnostic string (status 1). -/
def loadLibraryFailureExit (err : String) : ExitArg :=
  .message ("Error loading TDLib: " ++ err)

/-! ## Authentication state machine (`_handle_authentication`, lines 170-275) -/

/-- The values the interactive `input(...)` prompts return, abstracted as the
spec's Credential Provider.  `apiIdInput` models `int(input(...))`. -/
structure CredProvider where
  apiIdInput : Int
  apiHashInput : String
  phoneInput : String
  emailInput : String
  emailCodeInput : String
  codeInput : String
  firstNameInput : String
  lastNameInput : String
  passwordInput : String

/-- Control flow at the end of one loop iteration: continue looping, `break`
(line 189), or `return` (lines 227 and 275). -/
inductive Ctrl where
  | cont
  | brk
  | ret

/-- Observable result of one iteration of the authentication loop:
the (possibly updated) `self.api_id` / `self.api_hash`, the requests passed
to `self.send`, the lines printed, and the control flow taken. -/
structure StepResult where
  apiId : Int
  apiHash : String
  sent : List JVal
  printed : List String
  ctrl : Ctrl

/-- The `setTdlibParameters` request built on lines 200-212. -/
def setTdlibParametersReq (apiId : Int) (apiHash : String) : JVal :=
  .obj (.cons "@type" (.str "setTdlibParameters")
    (.cons "database_directory" (.str "tdlib_data")
    (.cons "use_message_database" (.bool true)
    (.cons "use_secret_chats" (.bool true)
    (.cons "api_id" (.int apiId)
    (.cons "api_hash" (.str apiHash)
    (.cons "system_language_code" (.str "en")
    (.cons "device_model" (.str "Python TDLib Client")
    (.cons "application_version" (.str "1.1") .nil)))))))))

/-- One pass through the `if/elif` chain on the authorization-state type
(lines 187-275), given the current client identity and the credential
provider.  Python truthiness: `not self.api_id` iff the integer is 0,
`not self.api_hash` iff the string is empty.  An unrecognized state string
falls through the whole chain and the loop just continues. -/
def authStep (apiId : Int) (apiHash : String) (cp : CredProvider)
    (authType : String) : StepResult :=
  if authType = "authorizationStateClosed" then
    ⟨apiId, apiHash, [], ["Authorization state closed."], .brk⟩
  else if authType = "authorizationStateWaitTdlibParameters" then
    let missing := apiId = 0 ∨ apiHash = ""
    let newId := if missing then cp.apiIdInput else apiId
    let newHash := if missing then cp.apiHashInput else apiHash
    ⟨newId, newHash, [setTdlibParametersReq newId newHash],
      (if missing then
        ["\nYou MUST obtain your own api_id and api_hash at https://my.telegram.org"]
      else []) ++ ["Setting TDLib parameters..."], .cont⟩
  else if authType = "authorizationStateWaitPhoneNumber" then
    ⟨apiId, apiHash,
      [.obj (.cons "@type" (.str "setAuthenticationPhoneNumber")
        (.cons "phone_number" (.str cp.phoneInput) .nil))], [], .cont⟩
  else if authType = "authorizationStateWaitPremiumPurchase" then
    ⟨apiId, apiHash, [], ["Telegram Premium subscription is required."], .ret⟩
  else if authType = "authorizationStateWaitEmailAddress" then
    ⟨apiId, apiHash,
      [.obj (.cons "@type" (.str "setAuthenticationEmailAddress")
        (.cons "email_address" (.str cp.emailInput) .nil))], [], .cont⟩
  else if authType = "authorizationStateWaitEmailCode" then
    ⟨apiId, apiHash,
      [.obj (.cons "@type" (.str "checkAuthenticationEmailCode")
        (.cons "code" (.obj (.cons "@type" (.str "emailAddressAuthenticationCode")
          (.cons "code" (.str cp.emailCodeInput) .nil))) .nil))], [], .cont⟩
  else if authType = "authorizationStateWaitCode" then
    ⟨apiId, apiHash,
      [.obj (.cons "@type" (.str "checkAuthenticationCode")
        (.cons "code" (.str cp.codeInput) .nil))], [], .cont⟩
  else if authType = "authorizationStateWaitRegistration" then
    ⟨apiId, apiHash,
      [.obj (.cons "@type" (.str "registerUser")
        (.cons "first_name" (.str cp.firstNameInput)
        (.cons "last_name" (.str cp.lastNameInput) .nil)))], [], .cont⟩
  else if authType = "authorizationStateWaitPassword" then
    ⟨apiId, apiHash,
      [.obj (.cons "@type" (.str "checkAuthenticationPassword")
        (.cons "password" (.str cp.passwordInput) .nil))], [], .cont⟩
  else if authType = "authorizationStateReady" then
    ⟨apiId, apiHash, [], ["Authorization complete! You are now logged in."], .ret⟩
  else
    ⟨apiId, apiHash, [], [], .cont⟩

/-- One iteration of the `while True` body (lines 173-275) on a received
message `e` (already known truthy): dispatch on `e["@type"]`; a missing field
is a Python `KeyError`, modelled as `none`.  Non-`updateAuthorizationState`
messages are printed (the `json.dumps(event, indent=2)` pretty-printing is
abstracted to the compact encoding) and the loop continues.  For an
authorization-state event the `@type` of `e["authorization_state"]` drives
`authStep`; a non-string state type falls through the whole `elif` chain. -/
def stepOfEvent (apiId : Int) (apiHash : String) (cp : CredProvider)
    (e : JVal) : Option StepResult :=
  match getField e "@type" with
  | none => none
  | some t =>
    match t with
    | .str ts =>
      if ts = "updateAuthorizationState" then
        match getField e "authorization_state" with
        | none => none
        | some st =>
          match getField st "@type" with
          | none => none
          | some (.str authType) => some (authStep apiId apiHash cp authType)
          | some _ => some ⟨apiId, apiHash, [], [], .cont⟩
      else
        some ⟨apiId, apiHash, [],
          ["Receive: " ++ String.mk (jencode e)], .cont⟩
    | _ =>
      some ⟨apiId, apiHash, [],
        ["Receive: " ++ String.mk (jencode e)], .cont⟩

/-- Observable result of running `_handle_authentication` over a finite poll
stream: requests sent, lines printed, and whether the loop exited (`break` or
`return` — the Python function returns `None` either way, so the two are not
distinguishable by the caller). -/
structure RunResult where
  sent : List JVal
  printed : List String
  terminated : Bool

/-- `_handle_authentication` (lines 170-275) run over a finite poll stream.
`none` models a `KeyError` escaping the loop; `terminated = false` means the
loop is still polling after the whole stream. -/
def runAuth (apiId : Int) (apiHash : String) (cp : CredProvider) :
    List (Option JVal) → Option RunResult
  | [] => some ⟨[], [], false⟩
  | none :: rest => runAuth apiId apiHash cp rest
  | some e :: rest =>
    if jtruthy e then
      match stepOfEvent apiId apiHash cp e with
      | none => none
      | some r =>
        match r.ctrl with
        | .cont =>
          match runAuth r.apiId r.apiHash cp rest with
          | none => none
          | some t => some ⟨r.sent ++ t.sent, r.printed ++ t.printed, t.terminated⟩
        | _ => some ⟨r.sent, r.printed, true⟩
    else runAuth apiId apiHash cp rest

/-- An `updateAuthorizationState` push event whose state has the given
`@type`. -/
def authEvt (st : String) : JVal :=
  .obj (.cons "@type" (.str "updateAuthorizationState")
    (.cons "authorization_state" (.obj (.cons "@type" (.str st) .nil)) .nil))

/-! ## Correlation Router (`invoke` / `send` / `wait`) -/

/-- The caller's request dict after line 126,
`query["@extra"] = \x7b"id": self.create_extra_id()\x7d`: the same dict
object, with the `@extra` binding set in place. -/
def invokeQuery (randomBytes : List Nat) (query : JFields) : JFields :=
  fset query "@extra"
    (JVal.obj (JFields.cons "id" (JVal.str (create_extra_id randomBytes)) JFields.nil))

/-- `TdJson.invoke` (lines 120-131) with the engine's poll stream as an
explicit parameter.  Returns the mutated caller dict (the mutation is on the
caller's own object and persists after the call), the bytes handed to
`_td_send`, and the result of `self.wait(query["@extra"]["id"])` over the
stream. -/
def invoke (randomBytes : List Nat) (query : JFields)
    (stream : List (Option JVal)) :
    JFields × List Char × Option (JVal × List (Option JVal)) :=
  let q2 := invokeQuery randomBytes query
  (q2, jencode (JVal.obj q2), waitRun (create_extra_id randomBytes) stream)

/-- `TdJson.send` (lines 133-141): the bytes handed to `_td_send` are just
`json.dumps(query)` of the caller's request — nothing is added to it, and
nothing else happens before the immediate return. -/
def sendSubmitted (query : JVal) : List Char :=
  jencode query

/-- The request `login` (line 159) passes to `send`. -/
def loginVersionQuery : JVal :=
  .obj (.cons "@type" (.str "getOption") (.cons "name" (.str "version") .nil))

/-! ## Demonstration data -/

/-- A response tagged for waiter id `"aa"`. -/
def msgA : JVal :=
  .obj (.cons "@type" (.str "ok")
    (.cons "@extra" (.obj (.cons "id" (.str "aa") .nil)) .nil))

/-- A response tagged for a different waiter id `"bb"`. -/
def msgB : JVal :=
  .obj (.cons "@type" (.str "ok")
    (.cons "@extra" (.obj (.cons "id" (.str "bb") .nil)) .nil))

/-- A poll stream interleaving another caller's tagged response (`msgB`)
before the one awaited response (`msgA`). -/
def demoStream : List (Option JVal) := [some msgB, some msgA]

/-- A concrete credential provider. -/
def cpDemo : CredProvider := ⟨1, "h", "p", "e", "ec", "c", "fn", "ln", "pw"⟩

/-- A response tagged with the id `invoke` generates from nine zero bytes. -/
def msgC : JVal :=
  .obj (.cons "@type" (.str "updateNewMessage")
    (.cons "@extra" (.obj (.cons "id" (.str "000000000000000000") .nil)) .nil))

/-- The random bytes of a demonstration `invoke`. -/
def demoBytes : List Nat := [0, 17, 34, 51, 68, 85, 102, 119, 136]

/-- A demonstration request dict. -/
def demoQueryFields : JFields := .cons "@type" (.str "getChats") .nil

/-- No leading decimal digit: guard needed so number parsing stops exactly at
the end of an encoded integer. -/
def noDigitHead (cs : List Char) : Prop :=
  ∀ c, cs.head? = some c → c.isDigit = false

/-! ## Helper lemmas about `wait` -/

/-- A message with a field is a nonempty dict, hence truthy in Python. -/
theorem jtruthy_of_getField {e : JVal} {k : String} {v : JVal}
    (h : getField e k = some v) : jtruthy e = true := by
  cases e with
  | obj fs =>
    cases fs with
    | nil => simp [getField, flookup] at h
    | cons k2 v2 fs2 => rfl
  | str s => simp [getField] at h
  | int n => simp [getField] at h
  | bool b => simp [getField] at h

/-- Line 282's test succeeds exactly on messages whose carried correlation id
is the awaited one. -/
theorem matchesExtra_iff (x : String) (e : JVal) :
    matchesExtra x e = true ↔ msgExtraId e = some x := by
  unfold matchesExtra msgExtraId
  cases hg : getField e "@extra" with
  | none => simp
  | some ex =>
    rw [jtruthy_of_getField hg]
    by_cases ht : jtruthy ex = true
    · simp only [Option.elim_some, ht, if_pos, Bool.true_and]
      cases hs : idOfExtraVal ex with
      | none => simp
      | some s => simp
    · have ht2 : jtruthy ex = false := by simpa using ht
      simp [ht2]

/-- Whatever `wait` returns bears the awaited correlation id. -/
theorem waitRun_matches :
    ∀ (x : String) (s : List (Option JVal)) (e : JVal)
      (rest : List (Option JVal)),
      waitRun x s = some (e, rest) → matchesExtra x e = true := by
  intro x s
  induction s with
  | nil => intro e rest h; simp [waitRun] at h
  | cons o s ih =>
    intro e rest h
    cases o with
    | none => exact ih e rest h
    | some m =>
      by_cases hm : matchesExtra x m = true
      · rw [waitRun, if_pos hm] at h
        obtain ⟨rfl, rfl⟩ := Prod.mk.injEq .. ▸ Option.some.inj h
        exact hm
      · rw [waitRun, if_neg hm] at h
        exact ih e rest h

/-- If nothing in the stream bears the id, `wait` is still looping after the
whole stream. -/
theorem waitRun_none_of_no_match :
    ∀ (x : String) (s : List (Option JVal)),
      (∀ m, some m ∈ s → matchesExtra x m = false) → waitRun x s = none := by
  intro x s
  induction s with
  | nil => intro _; rfl
  | cons o s ih =>
    intro h
    cases o with
    | none => exact ih fun m hm => h m (List.mem_cons_of_mem _ hm)
    | some m =>
      rw [waitRun, if_neg (by simp [h m (List.mem_cons_self _ _)])]
      exact ih fun m2 hm2 => h m2 (List.mem_cons_of_mem _ hm2)

/-- If some message in the stream bears the id, `wait` returns within the
stream. -/
theorem waitRun_isSome :
    ∀ (x : String) (s : List (Option JVal)),
      (∃ m, some m ∈ s ∧ matchesExtra x m = true) →
      (waitRun x s).isSome = true := by
  intro x s
  induction s with
  | nil => rintro ⟨m, hm, _⟩; simp at hm
  | cons o s ih =>
    rintro ⟨m, hm, hmatch⟩
    cases o with
    | none =>
      rw [waitRun]
      refine ih ⟨m, ?_, hmatch⟩
      rcases List.mem_cons.mp hm with h1 | h2
      · exact absurd h1 (by simp)
      · exact h2
    | some m2 =>
      by_cases hm2 : matchesExtra x m2 = true
      · rw [waitRun, if_pos hm2]; rfl
      · rw [waitRun, if_neg hm2]
        refine ih ⟨m, ?_, hmatch⟩
        rcases List.mem_cons.mp hm with h1 | h2
        · cases Option.some.inj h1; exact absurd hmatch hm2
        · exact h2

/-! ## Claims -/

/-- C1, counterexample.  The claim says a polled message whose correlation id
does not match the live waiter is forwarded to the Event Stream and remains
observable.  In the code, `wait` (lines 277-283) silently drops it: awaiting
id `"aa"` on a stream that interleaves another live waiter's response `msgB`
(id `"bb"`, as `msgExtraId` shows) consumes `msgB`; the full output of the
wait is the matching message and an exhausted remaining stream, and a
subsequent wait for `"bb"` on what is left finds nothing.  `msgB` was
discarded, not forwarded. -/
theorem wait_drops_other_response_cex :
    waitRun "aa" demoStream = some (msgA, []) ∧
    msgExtraId msgB = some "bb" ∧
    waitRun "bb" [] = none :=
  ⟨rfl, rfl, rfl⟩

/-- C1, amended: every polled message that does not bear the awaited
correlation id is discarded by `wait` — when `wait` returns, its entire
result is the matching message plus the unconsumed tail of the stream, and
each skipped message (including other callers' pending responses) appears in
neither; nothing is forwarded anywhere. -/
theorem wait_discards_nonmatching :
    ∀ (x : String) (s : List (Option JVal)) (e : JVal)
      (rest : List (Option JVal)),
      waitRun x s = some (e, rest) →
      ∃ pre, s = pre ++ some e :: rest ∧
        ∀ m, some m ∈ pre → matchesExtra x m = false := by
  intro x s
  induction s with
  | nil => intro e rest h; simp [waitRun] at h
  | cons o s ih =>
    intro e rest h
    cases o with
    | none =>
      obtain ⟨pre, hpre, hall⟩ := ih e rest h
      refine ⟨none :: pre, by simp [hpre], ?_⟩
      intro m hm
      rcases List.mem_cons.mp hm with h1 | h2
      · exact absurd h1 (by simp)
      · exact hall m h2
    | some m2 =>
      by_cases hm2 : matchesExtra x m2 = true
      · rw [waitRun, if_pos hm2] at h
        obtain ⟨rfl, rfl⟩ := Prod.mk.injEq .. ▸ Option.some.inj h
        exact ⟨[], by simp, by simp⟩
      · rw [waitRun, if_neg hm2] at h
        obtain ⟨pre, hpre, hall⟩ := ih e rest h
        refine ⟨some m2 :: pre, by simp [hpre], ?_⟩
        intro m hm
        rcases List.mem_cons.mp hm with h1 | h2
        · cases Option.some.inj h1
          exact Bool.not_eq_true _ ▸ hm2
        · exact hall m h2

/-- C1, witness for the amended theorem at the demonstration stream. -/
theorem wait_discards_nonmatching_witness :
    ∃ pre, demoStream = pre ++ some msgA :: ([] : List (Option JVal)) ∧
      ∀ m, some m ∈ pre → matchesExtra "aa" m = false :=
  wait_discards_nonmatching "aa" demoStream msgA [] rfl

/-- C2: a response returned by `invoke` (lines 120-131) always carries the
correlation id freshly generated for that request (`wait` only ever returns a
message bearing exactly that id); and the tie-break holds — a polled message
bearing the live waiter's id is returned to that waiter immediately,
whatever its `@type` discriminator is, never surfaced as an event (`wait`
inspects only the `@extra.id` field, line 282). -/
theorem invoke_response_id_matches :
    (∀ (bs : List Nat) (q : JFields) (stream : List (Option JVal))
       (e : JVal) (rest : List (Option JVal)),
      (invoke bs q stream).2.2 = some (e, rest) →
      msgExtraId e = some (create_extra_id bs)) ∧
    (∀ (x : String) (m : JVal) (stream : List (Option JVal)),
      msgExtraId m = some x →
      waitRun x (some m :: stream) = some (m, stream)) := by
  constructor
  · intro bs q stream e rest h
    exact (matchesExtra_iff _ e).mp (waitRun_matches _ stream e rest h)
  · intro x m stream h
    rw [waitRun, if_pos ((matchesExtra_iff x m).mpr h)]

/-- C2, witness: a concrete `invoke` whose engine stream delivers a tagged
response (of push-event-looking `@type`), and the tie-break on `msgB`. -/
theorem invoke_response_id_matches_witness :
    msgExtraId msgC = some (create_extra_id [0, 0, 0, 0, 0, 0, 0, 0, 0]) ∧
    waitRun "bb" [some msgB] = some (msgB, []) :=
  ⟨invoke_response_id_matches.1 [0, 0, 0, 0, 0, 0, 0, 0, 0] JFields.nil
      [some msgC] msgC [] rfl,
   invoke_response_id_matches.2 "bb" msgB [] rfl⟩

/-- C6: `wait` returns exactly when a message bearing the awaited id arrives
on the poll stream.  A `poll` timeout (`none`) never makes `wait` return;
over any finite stream of well-formed messages containing no match, `wait` is
still looping (so it never terminates if no match is ever delivered); when it
does return, the returned message bears the id; and a delivered match makes
it return within the stream. -/
theorem wait_terminates_iff_match :
    (∀ (x : String) (s : List (Option JVal)),
      waitRun x (none :: s) = waitRun x s) ∧
    (∀ (x : String) (s : List (Option JVal)),
      (∀ m, some m ∈ s → wellFormedMsg m = true ∧ matchesExtra x m = false) →
      waitRun x s = none) ∧
    (∀ (x : String) (s : List (Option JVal)) (e : JVal)
       (rest : List (Option JVal)),
      waitRun x s = some (e, rest) → matchesExtra x e = true) ∧
    (∀ (x : String) (s : List (Option JVal)),
      (∃ m, some m ∈ s ∧ matchesExtra x m = true) →
      (waitRun x s).isSome = true) :=
  ⟨fun _ _ => rfl,
   fun x s h => waitRun_none_of_no_match x s fun m hm => (h m hm).2,
   waitRun_matches,
   waitRun_isSome⟩

/-- C6, witness: a timeout is skipped, a matchless well-formed stream leaves
`wait` looping, and a delivered match ends the wait. -/
theorem wait_terminates_iff_match_witness :
    waitRun "aa" (none :: [some msgA]) = waitRun "aa" [some msgA] ∧
    waitRun "aa" [some msgB, none] = none ∧
    (waitRun "aa" [some msgB, some msgA]).isSome = true :=
  ⟨wait_terminates_iff_match.1 "aa" [some msgA],
   wait_terminates_iff_match.2.1 "aa" [some msgB, none]
     (by
       intro m hm
       simp only [List.mem_cons] at hm
       rcases hm with h1 | h1 | h1
       · cases Option.some.inj h1; exact ⟨rfl, rfl⟩
       · exact absurd h1 (by simp)
       · simp at h1),
   wait_terminates_iff_match.2.2.2 "aa" [some msgB, some msgA]
     ⟨msgA, by simp, rfl⟩⟩

/-- C4: whenever the authentication loop handles
`authorizationStateWaitTdlibParameters`, a missing client identity
(`api_id` falsy, i.e. 0, or `api_hash` falsy, i.e. empty — lines 192-197) is
first obtained synchronously from the Credential Provider, and the single
request then emitted is the parameters request (`@type`
`setTdlibParameters`, the spec's abstract `setParameters`) carrying exactly
that identity in its `api_id` / `api_hash` fields; a present identity is
kept. -/
theorem wait_tdlib_parameters_prompts_and_sends :
    ∀ (apiId : Int) (apiHash : String) (cp : CredProvider),
      let r := authStep apiId apiHash cp "authorizationStateWaitTdlibParameters"
      r.sent = [setTdlibParametersReq r.apiId r.apiHash] ∧
      r.ctrl = Ctrl.cont ∧
      getField (setTdlibParametersReq r.apiId r.apiHash) "@type" =
        some (.str "setTdlibParameters") ∧
      getField (setTdlibParametersReq r.apiId r.apiHash) "api_id" =
        some (.int r.apiId) ∧
      getField (setTdlibParametersReq r.apiId r.apiHash) "api_hash" =
        some (.str r.apiHash) ∧
      ((apiId = 0 ∨ apiHash = "") →
        r.apiId = cp.apiIdInput ∧ r.apiHash = cp.apiHashInput) ∧
      (¬(apiId = 0 ∨ apiHash = "") →
        r.apiId = apiId ∧ r.apiHash = apiHash) := by
  intro apiId apiHash cp
  by_cases hmiss : apiId = 0 ∨ apiHash = "" <;>
    simp [authStep, hmiss, setTdlibParametersReq, getField, flookup]

/-- C4, witness: with identity missing (0 and empty hash), the prompt result
is used and sent. -/
theorem wait_tdlib_parameters_prompts_and_sends_witness :
    (authStep 0 "" cpDemo "authorizationStateWaitTdlibParameters").apiId =
      cpDemo.apiIdInput ∧
    (authStep 0 "" cpDemo "authorizationStateWaitTdlibParameters").apiHash =
      cpDemo.apiHashInput ∧
    (authStep 0 "" cpDemo "authorizationStateWaitTdlibParameters").sent =
      [setTdlibParametersReq
        (authStep 0 "" cpDemo "authorizationStateWaitTdlibParameters").apiId
        (authStep 0 "" cpDemo "authorizationStateWaitTdlibParameters").apiHash] := by
  have h := wait_tdlib_parameters_prompts_and_sends 0 "" cpDemo
  exact ⟨(h.2.2.2.2.2.1 (Or.inl rfl)).1, (h.2.2.2.2.2.1 (Or.inl rfl)).2, h.1⟩

/-- C5, counterexample.  The claim says `WaitPremiumPurchase` produces an
"unsupported" outcome distinguishable from the success outcome of `Ready`.
In the code both paths simply `return` from `_handle_authentication` (lines
227 and 275): the control flow, the requests sent and the loop result are
identical for the two states — the only difference is the printed line, so
the caller cannot distinguish the outcomes programmatically. -/
theorem premium_outcome_equals_ready_cex :
    (authStep 1 "h" cpDemo "authorizationStateWaitPremiumPurchase").ctrl =
      (authStep 1 "h" cpDemo "authorizationStateReady").ctrl ∧
    (authStep 1 "h" cpDemo "authorizationStateWaitPremiumPurchase").sent =
      (authStep 1 "h" cpDemo "authorizationStateReady").sent ∧
    runAuth 1 "h" cpDemo [some (authEvt "authorizationStateWaitPremiumPurchase")] =
      some ⟨[], ["Telegram Premium subscription is required."], true⟩ ∧
    runAuth 1 "h" cpDemo [some (authEvt "authorizationStateReady")] =
      some ⟨[], ["Authorization complete! You are now logged in."], true⟩ :=
  ⟨rfl, rfl, rfl, rfl⟩

/-- C5, amended: on `WaitPremiumPurchase` the loop exits immediately and no
further request is ever sent (whatever the rest of the stream holds), but
the exit is not a programmatically distinct outcome — the control flow
equals that of the `Ready` success path, and the condition is surfaced only
as a printed message. -/
theorem premium_exits_immediately :
    ∀ (a : Int) (h : String) (cp : CredProvider) (rest : List (Option JVal)),
      runAuth a h cp
        (some (authEvt "authorizationStateWaitPremiumPurchase") :: rest) =
        some ⟨[], ["Telegram Premium subscription is required."], true⟩ ∧
      (authStep a h cp "authorizationStateWaitPremiumPurchase").ctrl =
        (authStep a h cp "authorizationStateReady").ctrl :=
  fun _ _ _ _ => ⟨rfl, rfl⟩

/-- C7: the registered log callback calls `sys.exit` on the fatal text at
severity 0 (terminating the process after surfacing the message), and does
nothing at any other severity (lines 95-98). -/
theorem log_callback_fatal_exits :
    ∀ (v : Int) (m : String),
      (v = 0 → on_log_message_callback v m =
        some (ExitArg.message ("TDLib fatal error: " ++ m))) ∧
      (v ≠ 0 → on_log_message_callback v m = none) := by
  intro v m
  refine ⟨fun h => ?_, fun h => ?_⟩
  · simp [on_log_message_callback, h]
  · simp [on_log_message_callback, h]

/-- C7, witness at severities 0 and 5. -/
theorem log_callback_fatal_exits_witness :
    on_log_message_callback 0 "boom" =
      some (ExitArg.message ("TDLib fatal error: " ++ "boom")) ∧
    on_log_message_callback 5 "warn" = none :=
  ⟨(log_callback_fatal_exits 0 "boom").1 rfl,
   (log_callback_fatal_exits 5 "warn").2 (by decide)⟩

/-- C8: a `KeyboardInterrupt` escaping the blocking authentication flow is
caught by `login` (lines 164-168) and turned into `sys.exit(0)` — a clean
stop with exit status 0 — while an unrecoverable engine-load failure exits
via `sys.exit` on a diagnostic string (line 55), which is status 1: the two
outcomes are distinct. -/
theorem cancel_exit_status_distinct :
    ∀ (err : String),
      loginExit AuthFlowResult.interrupted = some (ExitArg.code 0) ∧
      exitStatus (ExitArg.code 0) = 0 ∧
      exitStatus (loadLibraryFailureExit err) = 1 ∧
      exitStatus (loadLibraryFailureExit err) ≠ 0 :=
  fun _ => ⟨rfl, rfl, rfl, one_ne_zero⟩

/-- C8, witness at a concrete load error. -/
theorem cancel_exit_status_distinct_witness :
    loginExit AuthFlowResult.interrupted = some (ExitArg.code 0) ∧
    exitStatus (ExitArg.code 0) = 0 ∧
    exitStatus (loadLibraryFailureExit "dlopen failed") = 1 ∧
    exitStatus (loadLibraryFailureExit "dlopen failed") ≠ 0 :=
  cancel_exit_status_distinct "dlopen failed"

/-! ## Hex-id lemmas for C10 -/

/-- Every nibble maps to a lowercase hex digit character. -/
theorem hexChar_isHexLower (d : Nat) (hd : d < 16) :
    isHexLowerChar (hexChar d) = true := by
  interval_cases d <;> decide

/-- `hexlify` emits two characters per byte. -/
theorem hexChars_length : ∀ bs : List Nat, (hexChars bs).length = 2 * bs.length := by
  intro bs
  induction bs with
  | nil => rfl
  | cons b bs ih => simp [hexChars, List.foldr] at ih ⊢; omega

/-- All characters `hexlify` emits on bytes are lowercase hex digits. -/
theorem hexChars_hex :
    ∀ bs : List Nat, (∀ b ∈ bs, b < 256) →
      ∀ c ∈ hexChars bs, isHexLowerChar c = true := by
  intro bs
  induction bs with
  | nil => intro _ c hc; simp [hexChars] at hc
  | cons b bs ih =>
    intro hb c hc
    have hb256 : b < 256 := hb b (by simp)
    simp only [hexChars, List.foldr] at hc
    rcases List.mem_cons.mp hc with rfl | hc2
    · exact hexChar_isHexLower _ (by omega)
    · rcases List.mem_cons.mp hc2 with rfl | hc3
      · exact hexChar_isHexLower _ (by omega)
      · exact ih (fun b2 h2 => hb b2 (by simp [h2])) c hc3

/-- Dict update then lookup of the same key. -/
theorem flookup_fset_same : ∀ (fs : JFields) (k : String) (v : JVal),
    flookup (fset fs k v) k = some v
  | .nil, k, v => by simp [fset, flookup]
  | .cons k2 v2 fs, k, v => by
    by_cases hk : k2 = k
    · simp [fset, hk, flookup]
    · simp [fset, hk, flookup, flookup_fset_same fs k v]

/-- Dict update leaves every other key's binding unchanged. -/
theorem flookup_fset_other : ∀ (fs : JFields) (k : String) (v : JVal)
    (k2 : String), k2 ≠ k → flookup (fset fs k v) k2 = flookup fs k2
  | .nil, k, v, k2, hne => by
    simp [fset, flookup, Ne.symm hne]
  | .cons k3 v3 fs, k, v, k2, hne => by
    by_cases hk : k3 = k
    · subst hk
      simp [fset, flookup, Ne.symm hne]
    · by_cases hk2 : k3 = k2
      · subst hk2
        simp [fset, hk, flookup, hne]
      · simp [fset, hk, flookup, hk2, flookup_fset_other fs k v k2 hne]

/-- C10: `invoke` mutates the caller's own request dict in place (line 126):
after the call the dict carries an `@extra` field holding the freshly
generated correlation id — the lowercase-hex encoding of the 9 random bytes,
18 characters — while every other key's binding is untouched, and the
mutation is on the returned (same) dict object, persisting after `invoke`
returns. -/
theorem invoke_mutates_query_extra :
    ∀ (bs : List Nat) (q : JFields) (stream : List (Option JVal)),
      bs.length = 9 → (∀ b ∈ bs, b < 256) →
      flookup (invoke bs q stream).1 "@extra" =
        some (JVal.obj (JFields.cons "id"
          (JVal.str (create_extra_id bs)) JFields.nil)) ∧
      (∀ k, k ≠ "@extra" → flookup (invoke bs q stream).1 k = flookup q k) ∧
      (create_extra_id bs).length = 18 ∧
      (∀ c ∈ (create_extra_id bs).data, isHexLowerChar c = true) := by
  intro bs q stream hlen hbound
  refine ⟨?_, ?_, ?_, ?_⟩
  · exact flookup_fset_same q "@extra" _
  · intro k hk
    exact flookup_fset_other q "@extra" _ k hk
  · show (hexChars bs).length = 18
    rw [hexChars_length bs, hlen]
  · exact hexChars_hex bs hbound

/-- C10, witness on a concrete request and concrete random bytes. -/
theorem invoke_mutates_query_extra_witness :
    flookup (invoke demoBytes demoQueryFields []).1 "@extra" =
      some (JVal.obj (JFields.cons "id"
        (JVal.str (create_extra_id demoBytes)) JFields.nil)) ∧
    flookup (invoke demoBytes demoQueryFields []).1 "@type" =
      flookup demoQueryFields "@type" ∧
    (create_extra_id demoBytes).length = 18 := by
  have h := invoke_mutates_query_extra demoBytes demoQueryFields [] rfl (by decide)
  exact ⟨h.1, h.2.1 "@type" (by decide), h.2.2.1⟩

/-! ## Codec round-trip lemmas -/

/-- Unescaping a string body inverts `escapeChars` up to the closing
quote. -/
theorem parseStrBody_escape :
    ∀ (s : List Char) (rest : List Char),
      parseStrBody (escapeChars s ++ quoteChar :: rest) = some (s, rest)
  | [], rest => by
    show parseStrBody (quoteChar :: rest) = some ([], rest)
    rw [parseStrBody.eq_def]
    simp
  | c :: cs, rest => by
    by_cases hc : c = backslashChar ∨ c = quoteChar
    · simp only [escapeChars, if_pos hc, List.cons_append]
      rw [parseStrBody.eq_def]
      simp [parseStrBody_escape cs rest,
        show ¬ backslashChar = quoteChar from by decide]
    · push_neg at hc
      simp only [escapeChars,
        if_neg (by tauto : ¬(c = backslashChar ∨ c = quoteChar)),
        List.cons_append]
      rw [parseStrBody.eq_def]
      simp [hc.1, hc.2, parseStrBody_escape cs rest]

/-- Consuming a literal it was given. -/
theorem dropLit_self : ∀ (l rest : List Char), dropLit l (l ++ rest) = some rest
  | [], rest => rfl
  | c :: ls, rest => by simp [dropLit, dropLit_self ls rest]

/-- Facts about decimal digit characters. -/
theorem digitChar_spec (d : Nat) (hd : d < 10) :
    (digitChar d).isDigit = true ∧ (digitChar d).toNat - 48 = d ∧
    digitChar d ≠ quoteChar ∧ digitChar d ≠ lbraceChar ∧
    digitChar d ≠ 't' ∧ digitChar d ≠ 'f' ∧ digitChar d ≠ '-' := by
  interval_cases d <;> exact ⟨by decide, by decide, by decide, by decide,
    by decide, by decide, by decide⟩

/-- `takeDigits` reads back exactly a mapped digit list when what follows is
not a digit. -/
theorem takeDigits_digits :
    ∀ (ds : List Nat) (rest : List Char),
      (∀ d ∈ ds, d < 10) → noDigitHead rest →
      takeDigits (ds.map digitChar ++ rest) = (ds, rest)
  | [], rest => by
    intro _ hrest
    cases rest with
    | nil => rfl
    | cons c r => simp [takeDigits, hrest c rfl]
  | d :: ds, rest => by
    intro hds hrest
    have h := digitChar_spec d (hds d (by simp))
    simp [takeDigits, h.1, h.2.1,
      takeDigits_digits ds rest (fun x hx => hds x (by simp [hx])) hrest]

/-- Parsing back `natChars`. -/
theorem parseNat_natChars (n : Nat) (rest : List Char) (hrest : noDigitHead rest) :
    parseNatChars (natChars n ++ rest) = some (n, rest) := by
  by_cases hn : n = 0
  · subst hn
    unfold parseNatChars
    rw [show natChars 0 ++ rest = List.map digitChar [0] ++ rest by
      simp [natChars, List.map]]
    rw [takeDigits_digits [0] rest (by simp) hrest]
    simp [Nat.ofDigits]
  · have hds : ∀ d ∈ (Nat.digits 10 n).reverse, d < 10 := fun d hd =>
      Nat.digits_lt_base (by norm_num) (List.mem_reverse.mp hd)
    unfold parseNatChars
    rw [show natChars n ++ rest = ((Nat.digits 10 n).reverse.map digitChar) ++ rest by
      simp [natChars, hn]]
    rw [takeDigits_digits _ rest hds hrest]
    have hne : (Nat.digits 10 n).reverse ≠ [] := by
      simp [Nat.digits_ne_nil_iff_ne_zero.mpr hn]
    rcases hcase : (Nat.digits 10 n).reverse with _ | ⟨d0, ds⟩
    · exact absurd hcase hne
    · show some (Nat.ofDigits 10 (d0 :: ds).reverse, rest) = some (n, rest)
      rw [show ((d0 :: ds).reverse : List Nat) = Nat.digits 10 n by
        rw [← hcase, List.reverse_reverse]]
      rw [Nat.ofDigits_digits]

/-- The first character of `natChars` is a digit character. -/
theorem natChars_shape (m : Nat) :
    ∃ d tl, natChars m = digitChar d :: tl ∧ d < 10 := by
  by_cases hm : m = 0
  · exact ⟨0, [], by simp [hm, natChars], by omega⟩
  · have hne : (Nat.digits 10 m).reverse ≠ [] := by
      simp [Nat.digits_ne_nil_iff_ne_zero.mpr hm]
    rcases hcase : (Nat.digits 10 m).reverse with _ | ⟨d0, ds⟩
    · exact absurd hcase hne
    · refine ⟨d0, ds.map digitChar, ?_, ?_⟩
      · simp [natChars, hm, hcase]
      · exact Nat.digits_lt_base (by norm_num)
          (List.mem_reverse.mp (hcase ▸ List.mem_cons_self d0 ds))

/-- The first character of `intChars` is a minus sign or a digit; in
particular it is none of the characters the other parser branches test
for. -/
theorem intChars_shape (n : Int) :
    ∃ c tl, intChars n = c :: tl ∧
      c ≠ quoteChar ∧ c ≠ lbraceChar ∧ c ≠ 't' ∧ c ≠ 'f' := by
  by_cases hn : n < 0
  · exact ⟨'-', natChars n.natAbs, by simp [intChars, hn], by decide,
      by decide, by decide, by decide⟩
  · obtain ⟨d, tl, hshape, hd⟩ := natChars_shape n.toNat
    have h := digitChar_spec d hd
    exact ⟨digitChar d, tl, by simp [intChars, hn, hshape],
      h.2.2.1, h.2.2.2.1, h.2.2.2.2.1, h.2.2.2.2.2.1⟩

/-- Parsing back `intChars`. -/
theorem parseInt_intChars (n : Int) (rest : List Char) (hrest : noDigitHead rest) :
    parseIntChars (intChars n ++ rest) = some (n, rest) := by
  by_cases hn : n < 0
  · simp only [intChars, if_pos hn, List.cons_append]
    simp [parseIntChars, parseNat_natChars n.natAbs rest hrest]
    rw [abs_of_neg hn, neg_neg]
  · obtain ⟨d, tl, hshape, hd⟩ := natChars_shape n.toNat
    have hminus : digitChar d ≠ '-' := (digitChar_spec d hd).2.2.2.2.2.2
    simp only [intChars, if_neg hn]
    rw [hshape, List.cons_append, parseIntChars]
    rw [if_neg hminus, ← List.cons_append, ← hshape,
      parseNat_natChars n.toNat rest hrest]
    show some ((n.toNat : Int), rest) = some (n, rest)
    rw [show ((n.toNat : Int)) = n from by omega]

/-- Every value costs at least one unit of fuel. -/
theorem jsize_pos (m : JVal) : 1 ≤ jsize m := by
  cases m <;> simp [jsize]

/-- Every field list costs at least one unit of fuel. -/
theorem fsize_pos (fs : JFields) : 1 ≤ fsize fs := by
  cases fs with
  | nil => simp [fsize]
  | cons k v fs => simp only [fsize]; omega

/-- The fuel an encoded value needs is within its encoded length plus one. -/
theorem sizes_le :
    ∀ f : Nat,
      (∀ m : JVal, jsize m ≤ f → jsize m ≤ (jencode m).length + 1) ∧
      (∀ fs : JFields, fsize fs ≤ f → fsize fs ≤ (encodeFields fs).length + 1) := by
  intro f
  induction f with
  | zero =>
    refine ⟨fun m hm => ?_, fun fs hf => ?_⟩
    · exact absurd hm (by have := jsize_pos m; omega)
    · exact absurd hf (by have := fsize_pos fs; omega)
  | succ f ih =>
    refine ⟨fun m hm => ?_, fun fs hf => ?_⟩
    · cases m with
      | str s => simp [jsize]
      | int n => simp [jsize]
      | bool b => simp [jsize]
      | obj fs =>
        have h2 := ih.2 fs (by simp [jsize] at hm; omega)
        simp only [jsize, jencode, List.length_cons, List.length_append,
          List.length_singleton] at h2 ⊢
        omega
    · cases fs with
      | nil => simp [fsize, encodeFields]
      | cons k v fs2 =>
        have hv := ih.1 v
          (by have := fsize_pos fs2; simp [fsize] at hf; omega)
        have hf2 := ih.2 fs2
          (by have := jsize_pos v; simp [fsize] at hf; omega)
        cases fs2 with
        | nil =>
          simp only [fsize, encodeFields, List.length_append,
            List.length_cons] at hv hf2 ⊢
          simp [fsize] at hf2
          omega
        | cons k2 v2 fs3 =>
          simp only [fsize, encodeFields, List.length_append,
            List.length_cons] at hv hf2 ⊢
          omega

/-- Fuel-indexed round trip: the strict parser reads back exactly what the
encoder wrote, leaving the rest untouched. -/
theorem parse_encode :
    ∀ f : Nat,
      (∀ (m : JVal) (rest : List Char), jsize m ≤ f → noDigitHead rest →
        parseVal f (jencode m ++ rest) = some (m, rest)) ∧
      (∀ (fs : JFields) (rest : List Char), fsize fs ≤ f →
        parseFields f (encodeFields fs ++ rbraceChar :: rest) = some (fs, rest)) := by
  intro f
  induction f with
  | zero =>
    refine ⟨fun m rest hm _ => ?_, fun fs rest hf => ?_⟩
    · exact absurd hm (by have := jsize_pos m; omega)
    · exact absurd hf (by have := fsize_pos fs; omega)
  | succ f ih =>
    refine ⟨fun m rest hm hrest => ?_, fun fs rest hf => ?_⟩
    · cases m with
      | str s =>
        show parseVal (f + 1)
          (quoteChar :: (escapeChars s.data ++ [quoteChar]) ++ rest) = _
        rw [List.cons_append, List.append_assoc, List.singleton_append]
        rw [parseVal.eq_def]
        simp [parseStrBody_escape s.data rest]
      | int n =>
        obtain ⟨c, tl, hshape, hq, hb, ht, hf2⟩ := intChars_shape n
        show parseVal (f + 1) (intChars n ++ rest) = _
        rw [hshape, List.cons_append, parseVal.eq_def]
        simp only [if_neg hq, if_neg hb, if_neg ht, if_neg hf2]
        rw [← List.cons_append, ← hshape, parseInt_intChars n rest hrest]
      | bool b =>
        cases b with
        | false =>
          show parseVal (f + 1)
            ('f' :: 'a' :: 'l' :: 's' :: 'e' :: [] ++ rest) = _
          rw [parseVal.eq_def]
          have hd : dropLit ('a' :: 'l' :: 's' :: 'e' :: [])
              (('a' :: 'l' :: 's' :: 'e' :: []) ++ rest) = some rest :=
            dropLit_self _ rest
          simp only [List.cons_append, List.nil_append] at hd ⊢
          simp [hd, show ¬ ('f' : Char) = quoteChar from by decide,
            show ¬ ('f' : Char) = lbraceChar from by decide,
            show ¬ ('f' : Char) = 't' from by decide]
        | true =>
          show parseVal (f + 1)
            ('t' :: 'r' :: 'u' :: 'e' :: [] ++ rest) = _
          rw [parseVal.eq_def]
          have hd : dropLit ('r' :: 'u' :: 'e' :: [])
              (('r' :: 'u' :: 'e' :: []) ++ rest) = some rest :=
            dropLit_self _ rest
          simp only [List.cons_append, List.nil_append] at hd ⊢
          simp [hd, show ¬ ('t' : Char) = quoteChar from by decide,
            show ¬ ('t' : Char) = lbraceChar from by decide]
      | obj fs =>
        show parseVal (f + 1)
          (lbraceChar :: (encodeFields fs ++ [rbraceChar]) ++ rest) = _
        rw [List.cons_append, List.append_assoc, List.singleton_append]
        rw [parseVal.eq_def]
        simp [ih.2 fs rest (by simp [jsize] at hm; omega),
          show ¬ lbraceChar = quoteChar from by decide]
    · cases fs with
      | nil =>
        show parseFields (f + 1) ([] ++ rbraceChar :: rest) = _
        rw [List.nil_append, parseFields.eq_def]
        simp
      | cons k v fs2 =>
        have hv : jsize v ≤ f := by
          have := fsize_pos fs2; simp [fsize] at hf; omega
        have hf2 : fsize fs2 ≤ f := by
          have := jsize_pos v; simp [fsize] at hf; omega
        cases fs2 with
        | nil =>
          show parseFields (f + 1)
            ((encodeStr k ++ (':' :: ' ' :: jencode v)) ++ rbraceChar :: rest) = _
          rw [show (encodeStr k ++ (':' :: ' ' :: jencode v)) ++ rbraceChar :: rest
              = quoteChar :: (escapeChars k.data ++ quoteChar ::
                  (':' :: ' ' :: (jencode v ++ rbraceChar :: rest))) by
            simp [encodeStr, List.append_assoc]]
          rw [parseFields.eq_def]
          simp [parseStrBody_escape k.data
              (':' :: ' ' :: (jencode v ++ rbraceChar :: rest)),
            ih.1 v (rbraceChar :: rest) hv
              (by intro c hc; cases Option.some.inj hc; decide),
            show ¬ quoteChar = rbraceChar from by decide]
        | cons k2 v2 fs3 =>
          show parseFields (f + 1)
            (((encodeStr k ++ (':' :: ' ' :: jencode v)) ++
              (',' :: ' ' :: encodeFields (.cons k2 v2 fs3))) ++
              rbraceChar :: rest) = _
          rw [show ((encodeStr k ++ (':' :: ' ' :: jencode v)) ++
              (',' :: ' ' :: encodeFields (.cons k2 v2 fs3))) ++ rbraceChar :: rest
              = quoteChar :: (escapeChars k.data ++ quoteChar ::
                  (':' :: ' ' :: (jencode v ++ ',' :: ' ' ::
                    (encodeFields (.cons k2 v2 fs3) ++ rbraceChar :: rest)))) by
            simp [encodeStr, List.append_assoc]]
          rw [parseFields.eq_def]
          simp [parseStrBody_escape k.data
              (':' :: ' ' :: (jencode v ++ ',' :: ' ' ::
                (encodeFields (.cons k2 v2 fs3) ++ rbraceChar :: rest))),
            ih.1 v
              (',' :: ' ' :: (encodeFields (.cons k2 v2 fs3) ++ rbraceChar :: rest))
              hv (by intro c hc; cases Option.some.inj hc; decide),
            ih.2 (.cons k2 v2 fs3) rest hf2,
            show ¬ quoteChar = rbraceChar from by decide,
            show ¬ (',' : Char) = rbraceChar from by decide]

/-- Decoding inverts encoding. -/
theorem jdecode_jencode (m : JVal) : jdecode (jencode m) = some m := by
  have hsize : jsize m ≤ (jencode m).length + 1 :=
    (sizes_le (jsize m)).1 m le_rfl
  have h := (parse_encode ((jencode m).length + 1)).1 m [] hsize
    (by intro c hc; simp at hc)
  rw [List.append_nil] at h
  unfold jdecode
  rw [h]

/-- C9: the codec round trip is lossless — for every message constructible
from the data model, decoding the encoded form yields the message back
(`decode(encode(m)) == m`). -/
theorem codec_round_trip : ∀ m : JVal, jdecode (jencode m) = some m :=
  jdecode_jencode

/-- C3, counterexample.  The claim says `send` generates a fresh Correlation
Id and attaches it to the request.  In the code (lines 133-141) `send` is
`json.dumps(query)` plus `_td_send` only: the submitted bytes decode back to
exactly the caller's request — here `login`'s own first request — which
carries no `@extra` correlation field at all, so no id was generated or
attached. -/
theorem send_attaches_no_id_cex :
    jdecode (sendSubmitted loginVersionQuery) = some loginVersionQuery ∧
    getField loginVersionQuery "@extra" = none :=
  ⟨jdecode_jencode loginVersionQuery, rfl⟩

/-- C3, amended: `send` submits the caller's request exactly as given — the
submitted bytes decode back to the unchanged request, with no correlation id
generated or attached and no waiter registered — and returns immediately. -/
theorem send_submits_unchanged :
    ∀ q : JVal, jdecode (sendSubmitted q) = some q :=
  fun q => jdecode_jencode q

end SimpleTd
